import Mathlib

/-!
Verification of the concurrent proxy validation pipeline of the
world-bank-challenge repository (src/proxy/check_proxy.py and
src/utils/filesystem.py), via a shallow embedding in Lean.

Strings are modelled as lists of characters (`Str`), files as an
`Option Str` (none = file absent).  Python text-mode I/O on the inputs we
consider (no carriage returns) reads back exactly the bytes written.
-/

namespace ProxyCheck

/-- Python strings, modelled as lists of characters. -/
abbrev Str := List Char

/-- ASCII whitespace recognised by Python `str.isspace` / `str.rstrip()`:
space, tab, newline, carriage return, vertical tab, form feed. -/
def isPySpace (c : Char) : Bool :=
  c == ' ' || c == '\t' || c == '\n' || c == '\r' || c == '\x0b' || c == '\x0c'

/-- Python `line.rstrip()` (src/utils/filesystem.py line 69): removes all
trailing whitespace characters. -/
def pyRstrip (s : Str) : Str :=
  (s.reverse.dropWhile isPySpace).reverse

/-- Python `str.lstrip()`: removes all leading whitespace characters. -/
def pyLstrip (s : Str) : Str :=
  s.dropWhile isPySpace

/-- Python `str.strip()` (used on cell text in check_proxy.py lines 44-45). -/
def pyStrip (s : Str) : Str :=
  pyLstrip (pyRstrip s)

/-- Iterating a Python text file (`for line in file`): accumulates characters
of the current line (in reverse) and emits the line, newline included, at each
newline; a final unterminated line is also emitted. -/
def pythonLinesAux : Str → Str → List Str
  | [], [] => []
  | [], acc => [acc.reverse]
  | c :: cs, acc =>
    if c = '\n' then (acc.reverse ++ ['\n']) :: pythonLinesAux cs []
    else pythonLinesAux cs (c :: acc)

/-- The sequence of lines produced by iterating a file with content `content`. -/
def pythonLines (content : Str) : List Str :=
  pythonLinesAux content []

/-- The persist step of `process_proxies` (check_proxy.py lines 135-137): the
file content written by `for proxy in valid_proxies: file.write(proxy + "\n")`,
one candidate per line, each line terminated by a newline. -/
def persistContent : List Str → Str
  | [] => []
  | s :: rest => s ++ '\n' :: persistContent rest

/-- `read_file_to_list` (filesystem.py lines 55-71) applied to the content of
an existing file: for each line, append `line.rstrip()` to the result list. -/
def read_file_to_list (content : Str) : List Str :=
  (pythonLines content).foldl (fun acc line => acc ++ [pyRstrip line]) []

/-- `read_file_to_list` at the filesystem level: `open` on a missing file
raises `FileNotFoundError`, which the function does not catch (unlike
`ls_directory` in the same module, which catches it). -/
def read_file_fs : Option Str → Except Unit (List Str)
  | none => .error ()
  | some content => .ok (read_file_to_list content)

/-- A well-formed persisted line: contains no line terminator and has no
trailing whitespace (`pyRstrip` is the identity on it).  Any `address:port`
string with no leading or trailing whitespace satisfies this. -/
def wellFormedLine (s : Str) : Prop :=
  ('\n' ∉ s) ∧ ('\r' ∉ s) ∧ pyRstrip s = s

instance (s : Str) : Decidable (wellFormedLine s) := by
  unfold wellFormedLine; infer_instance

/- ### Helper lemmas for the store -/

theorem pyRstrip_append_space (s : Str) (c : Char) (hc : isPySpace c = true) :
    pyRstrip (s ++ [c]) = pyRstrip s := by
  simp [pyRstrip, List.dropWhile_cons, hc]

theorem pythonLinesAux_no_newline (s : Str) (hs : '\n' ∉ s) (rest : Str) (acc : Str) :
    pythonLinesAux (s ++ '\n' :: rest) acc
      = (acc.reverse ++ s ++ ['\n']) :: pythonLinesAux rest [] := by
  induction s generalizing acc with
  | nil => simp [pythonLinesAux]
  | cons c s ih =>
    have hc : c ≠ '\n' := fun h => hs (h ▸ List.mem_cons_self c s)
    have hs' : '\n' ∉ s := fun h => hs (List.mem_cons_of_mem c h)
    have step : pythonLinesAux ((c :: s) ++ '\n' :: rest) acc
        = pythonLinesAux (s ++ '\n' :: rest) (c :: acc) := by
      simp [pythonLinesAux, hc]
    rw [step, ih hs']
    simp

theorem pythonLines_persist_cons (s : Str) (hs : '\n' ∉ s) (rest : List Str) :
    pythonLines (persistContent (s :: rest))
      = (s ++ ['\n']) :: pythonLines (persistContent rest) := by
  simpa [pythonLines, persistContent] using
    pythonLinesAux_no_newline s hs (persistContent rest) []

theorem read_file_to_list_eq_map (content : Str) :
    read_file_to_list content = (pythonLines content).map pyRstrip := by
  unfold read_file_to_list
  generalize pythonLines content = ls
  suffices h : ∀ acc : List Str,
      ls.foldl (fun acc line => acc ++ [pyRstrip line]) acc = acc ++ ls.map pyRstrip by
    simpa using h []
  induction ls with
  | nil => simp
  | cons l ls ih => intro acc; simp [List.foldl_cons, ih]

theorem load_persist (S : List Str) (h : ∀ s ∈ S, wellFormedLine s) :
    read_file_to_list (persistContent S) = S := by
  induction S with
  | nil => simp [read_file_to_list, persistContent, pythonLines, pythonLinesAux]
  | cons s rest ih =>
    obtain ⟨hn, -, hr⟩ := h s (List.mem_cons_self s rest)
    have hrest : ∀ t ∈ rest, wellFormedLine t := fun t ht => h t (List.mem_cons_of_mem s ht)
    rw [read_file_to_list_eq_map] at *
    rw [pythonLines_persist_cons s hn rest]
    simp only [List.map_cons]
    rw [pyRstrip_append_space s '\n' (by decide), hr, ih hrest]

/- ### Claim theorems for the store -/

/-- C1.  Persist/load round trip: writing a sequence of well-formed lines with
the persist step of `process_proxies` and reading the file back with
`read_file_to_list` returns exactly the same ordered sequence, and persisting
the empty sequence produces an empty file. -/
theorem persist_load_roundtrip (S : List Str) (h : ∀ s ∈ S, wellFormedLine s) :
    read_file_to_list (persistContent S) = S ∧ persistContent ([] : List Str) = [] :=
  ⟨load_persist S h, rfl⟩

theorem persist_load_roundtrip_witness :
    read_file_to_list (persistContent [['1', '.', '2', ':', '8', '0']])
        = [['1', '.', '2', ':', '8', '0']]
      ∧ persistContent ([] : List Str) = [] :=
  persist_load_roundtrip [['1', '.', '2', ':', '8', '0']] (by decide)

/-- Load semantics as the claim states them: strip only trailing line
terminators, with no other modification of each line.  Stated from the spec's
words, to be compared with `read_file_to_list` from the source. -/
def loadStrippingTerminatorsSpec (content : Str) : List Str :=
  (pythonLines content).map fun line => (line.reverse.dropWhile fun c => c == '\n' || c == '\r').reverse

/-- C9 counterexample.  On the file content "a \n" (a line with a trailing
space), `read_file_to_list` returns ["a"], while stripping only line
terminators would return ["a "]: `rstrip()` also removes trailing spaces, so
the load does modify line content beyond the line terminator. -/
theorem read_file_strips_more_than_terminators :
    read_file_to_list ['a', ' ', '\n'] = [['a']]
      ∧ loadStrippingTerminatorsSpec ['a', ' ', '\n'] = [['a', ' ']]
      ∧ read_file_to_list ['a', ' ', '\n'] ≠ loadStrippingTerminatorsSpec ['a', ' ', '\n'] := by
  refine ⟨by decide, by decide, by decide⟩

/-- C9 amended.  For every existing file, `read_file_to_list` returns its lines
in file order with all trailing whitespace (spaces, tabs and line terminators)
stripped from each line and no other modification; for a missing file the
error surfaces to the caller rather than yielding an empty list. -/
theorem read_file_to_list_semantics (file : Option Str) :
    (file = none → read_file_fs file = .error ())
      ∧ (∀ content, file = some content →
          read_file_fs file = .ok ((pythonLines content).map pyRstrip)) := by
  constructor
  · rintro rfl; rfl
  · rintro content rfl
    simp [read_file_fs, read_file_to_list_eq_map]

theorem read_file_to_list_semantics_witness :
    read_file_fs (some ['a', ' ', '\n', 'b', '\n'])
      = .ok ((pythonLines ['a', ' ', '\n', 'b', '\n']).map pyRstrip) :=
  (read_file_to_list_semantics (some ['a', ' ', '\n', 'b', '\n'])).2 _ rfl

/- ### ProxyValidator: is_working_proxy (check_proxy.py lines 55-75) -/

/-- Network-layer failures raised by requests and caught as
`requests.exceptions.RequestException` in `is_working_proxy`. -/
inductive NetErr
  | timeout
  | connectionError
  | httpError
  deriving DecidableEq

/-- Outcome of the probe `requests.get("https://ipinfo.io/json", proxies=...,
timeout=5)`: either a response with an HTTP status code, or a raised
network-layer exception. -/
abbrev ProbeResult := Except NetErr Nat

/-- `is_working_proxy` (check_proxy.py lines 55-75): `is_valid` starts False,
a 200 status sets it True, and any `RequestException` is caught and logged, so
the function always returns a boolean. -/
def is_working_proxy (probe : ProbeResult) : Bool :=
  match probe with
  | .ok status => status == 200
  | .error _ => false

/-- C4.  Validation classification: `is_working_proxy` returns True exactly
when the probe returns HTTP status 200; any network error, timeout or non-200
status yields False.  The function is total on probe outcomes — the
network-layer exception cases are caught inside it, never re-raised. -/
theorem is_working_proxy_classification (probe : ProbeResult) :
    (is_working_proxy probe = true ↔ probe = .ok 200)
      ∧ (∀ e : NetErr, is_working_proxy (.error e) = false) := by
  refine ⟨?_, fun e => rfl⟩
  cases probe with
  | ok status => simp [is_working_proxy]
  | error e => simp [is_working_proxy]

/- ### validate_and_collect_proxy as an event trace (check_proxy.py 78-97) -/

/-- Observable events of one `validate_and_collect_proxy` call. -/
inductive Ev
  | append (addr : Str)
  | logValid (addr : Str)
  | logInvalid (addr : Str)
  | sleep (d : ℚ)
  deriving DecidableEq

/-- `random.uniform(a, b)`, modelled as `a + (b - a) * r` where `r` is the
underlying `random.random()` draw in `[0, 1]`. -/
def uniformDraw (a b r : ℚ) : ℚ := a + (b - a) * r

/-- `validate_and_collect_proxy` (check_proxy.py lines 78-97) as the ordered
trace of its side effects: on a working proxy it appends to the shared list,
logs, then sleeps `random.uniform(delay_min, delay_max)`; on a failing proxy
it only logs. -/
def validate_and_collect_proxy (probe : ProbeResult) (addr : Str)
    (delayMin delayMax r : ℚ) : List Ev :=
  if is_working_proxy probe then
    [.append addr, .logValid addr, .sleep (uniformDraw delayMin delayMax r)]
  else
    [.logInvalid addr]

/-- C7.  Delay only on success: the trace of `validate_and_collect_proxy`
contains a sleep event exactly when validation succeeded; every sleep occurs
strictly after the append of the candidate; and when `delayMin ≤ delayMax` the
slept duration lies in `[delayMin, delayMax]` for every underlying random draw
in `[0, 1]`. -/
theorem delay_only_on_success (probe : ProbeResult) (addr : Str)
    (delayMin delayMax r : ℚ) (hd : delayMin ≤ delayMax) (hr0 : 0 ≤ r) (hr1 : r ≤ 1) :
    ((∃ d, Ev.sleep d ∈ validate_and_collect_proxy probe addr delayMin delayMax r)
        ↔ is_working_proxy probe = true)
      ∧ (∀ (i : ℕ) (d : ℚ), (validate_and_collect_proxy probe addr delayMin delayMax r)[i]?
            = some (Ev.sleep d) →
          ∃ j : ℕ, j < i ∧ (validate_and_collect_proxy probe addr delayMin delayMax r)[j]?
            = some (Ev.append addr))
      ∧ (∀ d, Ev.sleep d ∈ validate_and_collect_proxy probe addr delayMin delayMax r →
          delayMin ≤ d ∧ d ≤ delayMax) := by
  unfold validate_and_collect_proxy
  have hbounds : delayMin ≤ uniformDraw delayMin delayMax r
      ∧ uniformDraw delayMin delayMax r ≤ delayMax := by
    unfold uniformDraw
    constructor
    · nlinarith
    · nlinarith
  cases hw : is_working_proxy probe with
  | false =>
    refine ⟨by simp, ?_, by simp⟩
    intro i d hi
    exfalso
    match i with
    | 0 => simp at hi
    | n + 1 => simp at hi
  | true =>
    refine ⟨by simp, ?_, ?_⟩
    · intro i d hi
      refine ⟨0, ?_, rfl⟩
      match i with
      | 0 => simp at hi
      | 1 => simp at hi
      | 2 => omega
      | n + 3 => simp at hi
    · intro d hd'
      have hdu : d = uniformDraw delayMin delayMax r := by simpa using hd'
      subst hdu
      exact hbounds

theorem delay_only_on_success_witness :
    ((∃ d, Ev.sleep d ∈ validate_and_collect_proxy (.ok 200) ['x'] 1 5 (1/2))
        ↔ is_working_proxy (.ok 200) = true)
      ∧ (∀ (i : ℕ) (d : ℚ), (validate_and_collect_proxy (.ok 200) ['x'] 1 5 (1/2))[i]?
            = some (Ev.sleep d) →
          ∃ j : ℕ, j < i ∧ (validate_and_collect_proxy (.ok 200) ['x'] 1 5 (1/2))[j]?
            = some (Ev.append ['x']))
      ∧ (∀ d, Ev.sleep d ∈ validate_and_collect_proxy (.ok 200) ['x'] 1 5 (1/2) →
          1 ≤ d ∧ d ≤ 5) :=
  delay_only_on_success (.ok 200) ['x'] 1 5 (1/2)
    (by norm_num) (by norm_num) (by norm_num)

/- ### ProxyListSource: scrape_free_proxy (check_proxy.py lines 11-52) -/

/-- An HTML table as seen by the scraper: its `class` attribute string and its
rows, each row the list of its `<td>` cell texts. -/
structure HtmlTable where
  cls : Str
  rows : List (List Str)
  deriving DecidableEq

/-- A fetched page, abstracted to its sequence of tables in document order. -/
abbrev Page := List HtmlTable

/-- The class string the scraper searches for (check_proxy.py line 34). -/
def targetClass : Str :=
  ['t','a','b','l','e',' ','t','a','b','l','e','-','s','t','r','i','p','e','d',
   ' ','t','a','b','l','e','-','b','o','r','d','e','r','e','d']

/-- `soup.find('table', \x7b'class': 'table table-striped table-bordered'\x7d)`:
the first table in document order whose class attribute matches the multi-word
class string (BeautifulSoup matches a space-separated search string against the
full class attribute value). -/
def findTable (page : Page) : Option HtmlTable :=
  page.find? fun t => t.cls == targetClass

/-- One iteration of the row loop (check_proxy.py lines 41-47): a row
contributes a candidate exactly when it has at least two cells, in which case
the candidate is `cells[0].text.strip() + ':' + cells[1].text.strip()`. -/
def rowCandidate (cells : List Str) : Option Str :=
  match cells with
  | c0 :: c1 :: _ => some (pyStrip c0 ++ ':' :: pyStrip c1)
  | _ => none

/-- The candidate list built from a table by the row loop, in row order. -/
def extractCandidates (t : HtmlTable) : List Str :=
  t.rows.filterMap rowCandidate

/-- Result of `requests.get(url, ...)` followed by `raise_for_status()`:
either a parsed page or a raised `RequestException` (which includes the
`HTTPError` raised on non-2xx status). -/
inductive FetchResult
  | ok (page : Page)
  | netError (e : NetErr)

/-- How one call of `scrape_free_proxy` terminates. -/
inductive ScrapeOutcome
  | fetchError
  | crashedNoTable
  | processed (candidates : List Str)
  deriving DecidableEq

/-- `scrape_free_proxy` (check_proxy.py lines 11-52) with `process_proxies`
inlined as its sequential abstraction (filter by the validation verdict, then
overwrite the proxy list file).  The state threaded through is the proxy list
file (`none` = absent).  On a `RequestException` the handler at line 51 logs
and returns.  When no matching table exists, line 37 logs, and then line 41
evaluates `table.find_all('tr')` with `table = None`, raising an
`AttributeError` that no handler catches: the run crashes before
`process_proxies` is reached. -/
def scrape_free_proxy (fetch : FetchResult) (verdict : Str → Bool)
    (file : Option Str) : ScrapeOutcome × Option Str :=
  match fetch with
  | .netError _ => (.fetchError, file)
  | .ok page =>
    match findTable page with
    | none => (.crashedNoTable, file)
    | some t =>
      let candidates := extractCandidates t
      (.processed candidates, some (persistContent (candidates.filter verdict)))

/- ### Claim theorems for the scraper -/

/-- C10.  Frame property on fetch failure: when the GET (or
`raise_for_status`) raises a network-layer requests exception,
`scrape_free_proxy` logs and returns without calling `process_proxies`; the
proxy list file is left exactly as it was, whatever its previous contents. -/
theorem fetch_failure_leaves_file_untouched (e : NetErr) (verdict : Str → Bool)
    (file : Option Str) :
    scrape_free_proxy (.netError e) verdict file = (.fetchError, file) := rfl

/-- C5.  No-table behaviour: on every fetched page with no table matching the
searched class, `scrape_free_proxy` does NOT proceed to call `process_proxies`
with an empty list — after logging, `table.find_all('tr')` is evaluated on
`None` and the call crashes with an uncaught `AttributeError`, leaving the
proxy list file untouched. -/
theorem no_table_crashes (page : Page) (verdict : Str → Bool) (file : Option Str)
    (h : findTable page = none) :
    scrape_free_proxy (.ok page) verdict file = (.crashedNoTable, file) := by
  simp [scrape_free_proxy, h]

theorem no_table_crashes_witness :
    scrape_free_proxy (.ok []) (fun _ => true) none = (.crashedNoTable, none) :=
  no_table_crashes [] (fun _ => true) none rfl

/-- Candidate extraction as the claim states it: candidates come from the
first table of the page, whatever its class.  Stated from the spec's words,
to be compared with the class-filtered `findTable` of the source. -/
def firstTableCandidatesSpec (page : Page) : Option (List Str) :=
  page.head?.map extractCandidates

/-- The candidate sequence `scrape_free_proxy` hands to `process_proxies`,
when it reaches that call. -/
def scrapeCandidates (page : Page) : Option (List Str) :=
  (findTable page).map extractCandidates

/-- C8 counterexample.  On a page whose first table does not carry the class
`table table-striped table-bordered`, the scraper skips that first table and
extracts from a later matching one: with first table row ("1","80") and a
second, class-matching table with row ("2","8080"), the code produces
["2:8080"] while the first table would give ["1:80"]. -/
theorem extraction_not_first_table :
    scrapeCandidates
        [⟨['x'], [[['1'], ['8','0']]]⟩, ⟨targetClass, [[['2'], ['8','0','8','0']]]⟩]
        = some [['2', ':', '8', '0', '8', '0']]
      ∧ firstTableCandidatesSpec
          [⟨['x'], [[['1'], ['8','0']]]⟩, ⟨targetClass, [[['2'], ['8','0','8','0']]]⟩]
          = some [['1', ':', '8', '0']]
      ∧ scrapeCandidates
          [⟨['x'], [[['1'], ['8','0']]]⟩, ⟨targetClass, [[['2'], ['8','0','8','0']]]⟩]
        ≠ firstTableCandidatesSpec
          [⟨['x'], [[['1'], ['8','0']]]⟩, ⟨targetClass, [[['2'], ['8','0','8','0']]]⟩] := by
  refine ⟨by decide, by decide, by decide⟩

/-- C8 amended.  For every successfully fetched page, `scrape_free_proxy`
parses the first table whose class attribute is exactly
`table table-striped table-bordered` (a member of the page), and for every row
of that table with at least two cells extracts the first two cell texts,
stripped of surrounding whitespace, joined as "ip:port", in row order; rows
with fewer than two cells contribute nothing. -/
theorem extraction_from_matching_table (page : Page) (verdict : Str → Bool)
    (file : Option Str) (t : HtmlTable) (h : findTable page = some t) :
    t ∈ page ∧ t.cls = targetClass
      ∧ (scrape_free_proxy (.ok page) verdict file).1
          = .processed (t.rows.filterMap fun cells =>
              match cells with
              | c0 :: c1 :: _ => some (pyStrip c0 ++ ':' :: pyStrip c1)
              | _ => none) := by
  refine ⟨List.mem_of_find?_eq_some h, ?_, ?_⟩
  · have := List.find?_some h
    simpa using this
  · simp only [scrape_free_proxy, h, extractCandidates]
    have hrow : ∀ cells : List Str, rowCandidate cells
        = match cells with
          | c0 :: c1 :: _ => some (pyStrip c0 ++ ':' :: pyStrip c1)
          | _ => none := by
      intro cells
      cases cells with
      | nil => rfl
      | cons c0 rest => cases rest <;> rfl
    exact congrArg ScrapeOutcome.processed (List.filterMap_congr fun cells _ => hrow cells)

theorem extraction_from_matching_table_witness :
    ⟨targetClass, [[['9'], ['8','0']], [['z']]]⟩
        ∈ ([⟨targetClass, [[['9'], ['8','0']], [['z']]]⟩] : Page)
      ∧ HtmlTable.cls ⟨targetClass, [[['9'], ['8','0']], [['z']]]⟩ = targetClass
      ∧ (scrape_free_proxy (.ok [⟨targetClass, [[['9'], ['8','0']], [['z']]]⟩])
            (fun _ => true) none).1
          = .processed ((HtmlTable.rows ⟨targetClass, [[['9'], ['8','0']], [['z']]]⟩).filterMap
              fun cells =>
              match cells with
              | c0 :: c1 :: _ => some (pyStrip c0 ++ ':' :: pyStrip c1)
              | _ => none) :=
  extraction_from_matching_table [⟨targetClass, [[['9'], ['8','0']], [['z']]]⟩]
    (fun _ => true) none ⟨targetClass, [[['9'], ['8','0']], [['z']]]⟩ (by decide)

/- ### ValidationCoordinator: process_proxies (check_proxy.py lines 100-139)

The thread pool runs one `validate_and_collect_proxy` task per candidate; the
tasks complete in an arbitrary interleaving.  Each task performs at most one
mutation of the shared `valid_proxies` list: a single `list.append`, which is
atomic in CPython (the GIL serializes it), so a completed run is modelled as a
sequence of atomic steps, each removing one still-pending task and appending
its address exactly when its validation verdict was Working. -/

/-- One dispatched validation task: the candidate address and the verdict
`is_working_proxy` produced for it during this run. -/
structure VTask where
  addr : Str
  working : Bool
  deriving DecidableEq

/-- The addresses of the tasks whose validation succeeded, in task order. -/
def workingAddrs (ts : List VTask) : List Str :=
  (ts.filter fun t => t.working).map fun t => t.addr

/-- One scheduler step: some pending task (at an arbitrary position) completes,
appending its address to the shared list exactly when it validated Working. -/
inductive SchedStep : List VTask × List Str → List VTask × List Str → Prop
  | complete (ts₁ ts₂ : List VTask) (t : VTask) (acc : List Str) :
      SchedStep (ts₁ ++ t :: ts₂, acc)
        (ts₁ ++ ts₂, acc ++ if t.working then [t.addr] else [])

/-- A (partial or complete) concurrent execution of the task pool. -/
def SchedRun : List VTask × List Str → List VTask × List Str → Prop :=
  Relation.ReflTransGen SchedStep

theorem workingAddrs_append (l₁ l₂ : List VTask) :
    workingAddrs (l₁ ++ l₂) = workingAddrs l₁ ++ workingAddrs l₂ := by
  simp [workingAddrs, List.filter_append]

theorem workingAddrs_cons (t : VTask) (l : List VTask) :
    workingAddrs (t :: l)
      = (if t.working then [t.addr] else []) ++ workingAddrs l := by
  cases h : t.working <;> simp [workingAddrs, List.filter_cons, h]

theorem schedStep_invariant {s s' : List VTask × List Str} (h : SchedStep s s') :
    (s.2 ++ workingAddrs s.1).Perm (s'.2 ++ workingAddrs s'.1) := by
  cases h with
  | complete ts₁ ts₂ t acc =>
    simp only [workingAddrs_append, workingAddrs_cons]
    rw [List.perm_iff_count]
    intro a
    simp only [List.count_append]
    omega

theorem schedRun_invariant {s s' : List VTask × List Str} (h : SchedRun s s') :
    (s.2 ++ workingAddrs s.1).Perm (s'.2 ++ workingAddrs s'.1) := by
  induction h with
  | refl => exact List.Perm.refl _
  | tail _ hstep ih => exact ih.trans (schedStep_invariant hstep)

/-- A completed run collects exactly a permutation of the working subset. -/
theorem schedRun_perm (tasks : List VTask) (acc : List Str)
    (h : SchedRun (tasks, []) ([], acc)) : acc.Perm (workingAddrs tasks) := by
  have := schedRun_invariant h
  simp only [workingAddrs] at this ⊢
  simpa [workingAddrs] using this.symm

/- ### Claim theorems for the coordinator's shared list -/

/-- C2.  Set non-expansion: after any completed run of the task pool, every
entry of the shared `valid_proxies` list is one of the submitted candidates
and passed `is_working_proxy` during that run, and (for well-formed candidate
strings) every line of the file written from it is such an entry; no address
absent from the input and no failing candidate ever appears. -/
theorem set_nonexpansion (tasks : List VTask) (acc : List Str)
    (h : SchedRun (tasks, []) ([], acc)) :
    (∀ a ∈ acc, ∃ t ∈ tasks, t.addr = a ∧ t.working = true)
      ∧ ((∀ a ∈ acc, wellFormedLine a) →
          ∀ line ∈ read_file_to_list (persistContent acc),
            ∃ t ∈ tasks, t.addr = line ∧ t.working = true) := by
  have hperm := schedRun_perm tasks acc h
  have hmem : ∀ a ∈ acc, ∃ t ∈ tasks, t.addr = a ∧ t.working = true := by
    intro a ha
    have : a ∈ workingAddrs tasks := hperm.mem_iff.mp ha
    simp only [workingAddrs, List.mem_map, List.mem_filter] at this
    obtain ⟨t, ⟨ht, hw⟩, rfl⟩ := this
    exact ⟨t, ht, rfl, hw⟩
  refine ⟨hmem, fun hwf line hline => ?_⟩
  rw [load_persist acc hwf] at hline
  exact hmem line hline

/-- C3.  Append safety: for every interleaving of the worker tasks (every
complete `SchedRun`), the shared list ends with exactly as many entries as
there are Working candidates — no lost updates (every Working candidate's
address is present) and, for pairwise-distinct candidates, no duplicates.
Each append is a single atomic step, the model of CPython's GIL-serialized
`list.append`. -/
theorem append_safety (tasks : List VTask) (acc : List Str)
    (h : SchedRun (tasks, []) ([], acc)) :
    acc.length = (tasks.filter fun t => t.working).length
      ∧ ((tasks.map fun t => t.addr).Nodup → acc.Nodup)
      ∧ (∀ t ∈ tasks, t.working = true → t.addr ∈ acc) := by
  have hperm := schedRun_perm tasks acc h
  refine ⟨?_, ?_, ?_⟩
  · simpa [workingAddrs] using hperm.length_eq
  · intro hnodup
    have hsub : (workingAddrs tasks).Sublist (tasks.map fun t => t.addr) := by
      unfold workingAddrs
      exact List.Sublist.map _ (List.filter_sublist tasks)
    exact (hperm.nodup_iff).mpr (hnodup.sublist hsub)
  · intro t ht hw
    refine hperm.mem_iff.mpr ?_
    simp only [workingAddrs, List.mem_map, List.mem_filter]
    exact ⟨t, ⟨ht, hw⟩, rfl⟩

/-- A concrete three-task run used to instantiate the coordinator claims: the
second (failing) task completes first, then the two working ones. -/
theorem schedRun_example :
    SchedRun ([⟨['a'], true⟩, ⟨['b'], false⟩, ⟨['c'], true⟩], ([] : List Str))
      ([], [['c'], ['a']]) := by
  refine Relation.ReflTransGen.head
    (SchedStep.complete [⟨['a'], true⟩] [⟨['c'], true⟩] ⟨['b'], false⟩ []) ?_
  refine Relation.ReflTransGen.head
    (SchedStep.complete [⟨['a'], true⟩] [] ⟨['c'], true⟩ []) ?_
  refine Relation.ReflTransGen.head
    (SchedStep.complete [] [] ⟨['a'], true⟩ [['c']]) ?_
  exact Relation.ReflTransGen.refl

theorem set_nonexpansion_witness :
    (∀ a ∈ [['c'], ['a']], ∃ t ∈ [(⟨['a'], true⟩ : VTask), ⟨['b'], false⟩, ⟨['c'], true⟩],
        t.addr = a ∧ t.working = true)
      ∧ ((∀ a ∈ [['c'], ['a']], wellFormedLine a) →
          ∀ line ∈ read_file_to_list (persistContent [['c'], ['a']]),
            ∃ t ∈ [(⟨['a'], true⟩ : VTask), ⟨['b'], false⟩, ⟨['c'], true⟩],
              t.addr = line ∧ t.working = true) :=
  set_nonexpansion [⟨['a'], true⟩, ⟨['b'], false⟩, ⟨['c'], true⟩] [['c'], ['a']]
    schedRun_example

theorem append_safety_witness :
    ([['c'], ['a']] : List Str).length
        = ([(⟨['a'], true⟩ : VTask), ⟨['b'], false⟩, ⟨['c'], true⟩].filter
            fun t => t.working).length
      ∧ (([(⟨['a'], true⟩ : VTask), ⟨['b'], false⟩, ⟨['c'], true⟩].map
            fun t => t.addr).Nodup → ([['c'], ['a']] : List Str).Nodup)
      ∧ (∀ t ∈ [(⟨['a'], true⟩ : VTask), ⟨['b'], false⟩, ⟨['c'], true⟩],
          t.working = true → t.addr ∈ ([['c'], ['a']] : List Str)) := by
  have hrun : SchedRun ([⟨['a'], true⟩, ⟨['b'], false⟩, ⟨['c'], true⟩], ([] : List Str))
      ([], [['c'], ['a']]) := by
    refine Relation.ReflTransGen.head
      (SchedStep.complete [⟨['a'], true⟩] [⟨['c'], true⟩] ⟨['b'], false⟩ []) ?_
    refine Relation.ReflTransGen.head
      (SchedStep.complete [⟨['a'], true⟩] [] ⟨['c'], true⟩ []) ?_
    refine Relation.ReflTransGen.head
      (SchedStep.complete [] [] ⟨['a'], true⟩ [['c']]) ?_
    exact Relation.ReflTransGen.refl
  exact append_safety [⟨['a'], true⟩, ⟨['b'], false⟩, ⟨['c'], true⟩] [['c'], ['a']] hrun

/- ### Barrier and fail-fast in process_proxies (check_proxy.py lines 125-137) -/

/-- Unexpected faults inside a worker task (anything other than the
network-layer `RequestException` cases, which `is_working_proxy` absorbs),
identified by an opaque code. -/
abbrev Fault := Nat

/-- A dispatched future as seen by the await loop of `process_proxies`: the
candidate address together with the task's terminal state — either a raised
unexpected fault, or normal completion with its validation verdict. -/
structure FutureTask where
  addr : Str
  outcome : Except Fault Bool

/-- The await loop `for future in futures: future.result()` (lines 131-132):
inspects every future in submission order and re-raises the first unexpected
fault; returns normally only when no task faulted. -/
def awaitAll : List FutureTask → Except Fault Unit
  | [] => .ok ()
  | f :: fs =>
    match f.outcome with
    | .error e => .error e
    | .ok _ => awaitAll fs

/-- The entries appended to `valid_proxies` by the tasks that completed with a
Working verdict. -/
def validOf (fs : List FutureTask) : List Str :=
  (fs.filter fun f =>
    match f.outcome with
    | .ok true => true
    | _ => false).map fun f => f.addr

/-- `process_proxies` (lines 122-137) around the await loop: all futures are
dispatched, the loop re-raises the first unexpected fault (which then escapes
`process_proxies`), and only when every task completed normally is the proxy
list file opened and overwritten with the collected valid proxies. -/
def process_proxies (futures : List FutureTask) (file : Option Str) :
    Except Fault Unit × Option Str :=
  match awaitAll futures with
  | .error e => (.error e, file)
  | .ok _ => (.ok (), some (persistContent (validOf futures)))

theorem awaitAll_ok_iff (fs : List FutureTask) :
    awaitAll fs = .ok () ↔ ∀ f ∈ fs, ∀ e : Fault, f.outcome ≠ .error e := by
  induction fs with
  | nil => simp [awaitAll]
  | cons f fs ih =>
    cases hf : f.outcome with
    | error e => simp [awaitAll, hf]
    | ok b => simp [awaitAll, hf, ih]

theorem awaitAll_error_of_fault (fs : List FutureTask)
    (h : ∃ f ∈ fs, ∃ e : Fault, f.outcome = .error e) :
    ∃ e : Fault, awaitAll fs = .error e := by
  induction fs with
  | nil => simp at h
  | cons f fs ih =>
    cases hf : f.outcome with
    | error e => exact ⟨e, by simp [awaitAll, hf]⟩
    | ok b =>
      obtain ⟨g, hg, e, he⟩ := h
      rcases List.mem_cons.mp hg with rfl | hg'
      · rw [hf] at he; cases he
      · obtain ⟨e', he'⟩ := ih ⟨g, hg', e, he⟩
        exact ⟨e', by simp [awaitAll, hf, he']⟩

/-- C6.  Barrier and fail-fast: the proxy list file is written only on the
branch where every dispatched task completed without an unexpected fault, and
its content is then a function of all task outcomes; if any task raised an
unexpected fault, that fault propagates out of `process_proxies` and the file
is never opened or written.  (Expected network-layer failures never reach this
level: `is_working_proxy` absorbs them into a False verdict.) -/
theorem barrier_and_fail_fast (futures : List FutureTask) (file : Option Str) :
    ((∃ f ∈ futures, ∃ e : Fault, f.outcome = .error e) →
        ∃ e : Fault, process_proxies futures file = (.error e, file))
      ∧ ((∀ f ∈ futures, ∀ e : Fault, f.outcome ≠ .error e) →
          process_proxies futures file
            = (.ok (), some (persistContent (validOf futures)))) := by
  constructor
  · intro h
    obtain ⟨e, he⟩ := awaitAll_error_of_fault futures h
    exact ⟨e, by simp [process_proxies, he]⟩
  · intro h
    have hok : awaitAll futures = .ok () := (awaitAll_ok_iff futures).mpr h
    simp [process_proxies, hok]

theorem barrier_and_fail_fast_witness :
    ∃ e : Fault,
      process_proxies [⟨['a'], .ok true⟩, ⟨['b'], .error 7⟩, ⟨['c'], .ok false⟩] none
        = (.error e, none) :=
  (barrier_and_fail_fast [⟨['a'], .ok true⟩, ⟨['b'], .error 7⟩, ⟨['c'], .ok false⟩]
      none).1
    ⟨⟨['b'], .error 7⟩, List.mem_cons_of_mem _ (List.mem_cons_self _ _), 7, rfl⟩

end ProxyCheck
